import Mathlib

/-!
Verification development for the tutoring-progress backend
(`backend/src/routes/progresoRoutes.js` and the finalize route in
`backend/src/routes/resultados.js`).

The JavaScript source is shallowly embedded: timestamps become an explicit
`JSDate` value (`invalid` for unparseable dates, `valid ms` for a parsed
epoch-millisecond instant), JS `null`/`undefined` fields become `Option`,
the Mongo collaborators (record fetch, exercise lookup, persistence) and the
remote classifier call become explicit parameters, and `JSON.parse` is
modelled by an executable JSON parser over character lists.
-/

namespace TutorVirtual

/-! ### Generic stable descending sort

`Array.prototype.sort` with comparator `(a, b) => b.key - a.key` is a stable
descending sort (ECMAScript guarantees stability).  A stable sort for a given
comparator is unique, so we model it by stable insertion sort, descending on
a key. -/

def insertDescBy {α β : Type} [LinearOrder β] (key : α → β) (x : α) :
    List α → List α
  | [] => [x]
  | y :: ys => if key x < key y then y :: insertDescBy key x ys else x :: y :: ys

def sortDescBy {α β : Type} [LinearOrder β] (key : α → β) : List α → List α
  | [] => []
  | x :: xs => insertDescBy key x (sortDescBy key xs)

/-! ### Day keys and the streak (`dayKeyMadrid`, `computeStreak`) -/

/-- A JavaScript `Date`-like value: either an unparseable date (`new Date(x)`
with `NaN` time) or a valid instant with its epoch milliseconds.  A missing
(`null`/`undefined`) date is `Option.none` at use sites. -/
inductive JSDate where
  | invalid : JSDate
  | valid : Int → JSDate
deriving DecidableEq, Repr

def msPerDay : Int := 86400000

/-- Calendar-day index of an instant.  The source delegates the civil-day
bucketing to `Intl.DateTimeFormat` with `timeZone: "Europe/Madrid"` (a runtime
facility outside the repository); we model the civil day as a fixed, pure,
deterministic bucketing of the epoch milliseconds, which is exactly the
contract the source relies on (same instant, same key; keys ordered
chronologically). -/
def civilDayIndex (ms : Int) : Int := Int.fdiv ms msPerDay

/-- `dayKeyMadrid` (progresoRoutes.js:13-29): `null`/`undefined` or an
unparseable date yields `null`; otherwise the civil-day key of the instant.
The source returns the key as a `YYYY-MM-DD` string whose lexicographic order
is chronological; we return the day index itself, with the same order. -/
def dayKeyMadrid : Option JSDate → Option Int
  | none => none
  | some JSDate.invalid => none
  | some (JSDate.valid ms) => some (civilDayIndex ms)

/-- The backward walk of `computeStreak` (progresoRoutes.js:46-53) over the
distinct day keys in descending order: starting at the most recent day with
`streak = 1`, extend while the gap to the predecessor is exactly one day,
stop at the first other gap. -/
def streakRun : List Int → Nat
  | a :: b :: rest => if a = b + 1 then 1 + streakRun (b :: rest) else 1
  | _ => 1

/-- `computeStreak` (progresoRoutes.js:35-56): map the inputs through
`dayKeyMadrid`, drop nulls, deduplicate, return 0 on the empty set, else sort
ascending and count consecutive days backward from the most recent one. -/
def computeStreak (dates : List (Option JSDate)) : Nat :=
  let keys := (dates.filterMap dayKeyMadrid).dedup
  if keys = [] then 0
  else streakRun (List.insertionSort (· ≤ ·) keys).reverse

/-! ### Result records and the aggregation route (`GET /:userId`) -/

/-- One element of a record's `errores` array: `{etiqueta, texto}`.  A missing
or empty label is modelled by `etiqueta = ""` (both are falsy in JS). -/
structure ErrorEntry where
  etiqueta : String
  texto : String
deriving DecidableEq, Repr

/-- The `ejercicio_id` field of a result record: `null`/`undefined`, an
unpopulated ObjectId (string form), or a populated exercise document with
`_id`, optional `titulo` and optional `concepto`. -/
inductive EjercicioRef where
  | nulo : EjercicioRef
  | raw : String → EjercicioRef
  | pop : String → Option String → Option String → EjercicioRef
deriving DecidableEq, Repr

/-- A result record as read by the progress route.  `fecha`, `createdAt`,
`updatedAt` are optional dates, `numMensajes` models `r.numMensajes || 0`. -/
structure Resultado where
  fecha : Option JSDate
  createdAt : Option JSDate
  updatedAt : Option JSDate
  ejercicio : EjercicioRef
  numMensajes : Nat
  analisisIA : Option String
  consejoIA : Option String
  errores : List ErrorEntry
deriving DecidableEq, Repr

/-- `r.ejercicio_id?.concepto`: only a populated exercise document has a
`concepto` property. -/
def conceptoOf (r : Resultado) : Option String :=
  match r.ejercicio with
  | EjercicioRef.pop _ _ c => c
  | _ => none

/-- The dual-path exercise id of progresoRoutes.js:121-126: the populated
document's `_id.toString()` if present, else the raw reference's
`toString()`, else `null`. -/
def ejercicioIdStr : EjercicioRef → Option String
  | EjercicioRef.nulo => none
  | EjercicioRef.raw oid => some oid
  | EjercicioRef.pop oid _ _ => some oid

/-- `haceUnaSemana` (progresoRoutes.js:112-113): seven days before `now` by
wall-clock subtraction (`setDate(getDate() - 7)` keeps the time of day). -/
def haceUnaSemana (now : Int) : Int := now - 7 * msPerDay

/-- The weekly filter predicate of progresoRoutes.js:115:
`r.fecha && new Date(r.fecha) >= haceUnaSemana`.  A missing `fecha` is falsy;
an invalid date compares as `NaN >= x`, which is `false`; otherwise the
comparison is an inclusive lower bound on the instant. -/
def inWeek (weekAgo : Int) (r : Resultado) : Bool :=
  match r.fecha with
  | some (JSDate.valid ms) => weekAgo ≤ ms
  | _ => false

/-- `resultadosSemana` (progresoRoutes.js:115). -/
def resultadosSemana (weekAgo : Int) (rs : List Resultado) : List Resultado :=
  rs.filter (inWeek weekAgo)

/-- `conceptosSemana.size` (progresoRoutes.js:117): distinct truthy concepts
among the weekly records. -/
def conceptosDistintos (weekAgo : Int) (rs : List Resultado) : Nat :=
  ((((resultadosSemana weekAgo rs).filterMap conceptoOf).filter
      (fun c => c ≠ "")).dedup).length

/-- `ejerciciosUnicosSemana.size` (progresoRoutes.js:119-128): distinct
truthy exercise-id strings among the weekly records. -/
def ejerciciosCompletados (weekAgo : Int) (rs : List Resultado) : Nat :=
  ((((resultadosSemana weekAgo rs).filterMap
        (fun r => ejercicioIdStr r.ejercicio)).filter
      (fun s => s ≠ "")).dedup).length

/-- The streak input of progresoRoutes.js:131:
`r.fecha || r.createdAt || r.updatedAt` (JS `||` falls through on
`null`/`undefined`; an invalid `Date` object is truthy). -/
def fechaActividad (r : Resultado) : Option JSDate :=
  (r.fecha.orElse fun _ => (r.createdAt.orElse fun _ => r.updatedAt))

/-- `rachaDias` (progresoRoutes.js:131). -/
def rachaDias (rs : List Resultado) : Nat :=
  computeStreak (rs.map fechaActividad)

/-! ### Frequent errors (progresoRoutes.js:147-163) -/

/-- An aggregated entry of `mapaErrores`: `{etiqueta, texto, veces}`. -/
structure ErrorAgg where
  etiqueta : String
  texto : String
  veces : Nat
deriving DecidableEq, Repr

/-- One step of the error-count loop (progresoRoutes.js:150-160): skip falsy
labels; create a `{etiqueta, texto: e.texto || e.etiqueta, veces: 1}` entry on
first encounter (the source creates it with 0 and immediately increments);
otherwise increment the existing entry's count.  The accumulator list is in
first-encounter order, matching JS object insertion order for these keys. -/
def registraError (acc : List ErrorAgg) (e : ErrorEntry) : List ErrorAgg :=
  if e.etiqueta = "" then acc
  else if acc.any (fun a => a.etiqueta == e.etiqueta) then
    acc.map (fun a =>
      if a.etiqueta = e.etiqueta then
        { a with veces := a.veces + 1 }
      else a)
  else
    acc ++ [⟨e.etiqueta, if e.texto = "" then e.etiqueta else e.texto, 1⟩]

/-- `mapaErrores` as `Object.values` in insertion order
(progresoRoutes.js:148-161): the nested loop over all records and their
error entries. -/
def mapaErrores (rs : List Resultado) : List ErrorAgg :=
  rs.foldl (fun acc r => r.errores.foldl registraError acc) []

/-- `erroresFrecuentes` (progresoRoutes.js:163): stable sort descending by
`veces`, take the first 3. -/
def erroresFrecuentes (rs : List Resultado) : List ErrorAgg :=
  (sortDescBy (fun a => a.veces) (mapaErrores rs)).take 3

/-! ### Per-concept efficiency and the recommendation
(progresoRoutes.js:95-108 and 165-217) -/

/-- One entry of `eficienciaPorConcepto`: a concept with its mean message
count (ideal rational arithmetic in place of JS floats). -/
structure Eficiencia where
  concepto : String
  interacciones : ℚ
deriving DecidableEq, Repr

/-- The exercise document returned by `Ejercicio.findOne(...).select(...)`. -/
structure EjercicioDoc where
  oid : String
  titulo : String
  concepto : String
deriving DecidableEq, Repr

/-- The recommendation payload (progresoRoutes.js:168-173). -/
structure Recomendacion where
  titulo : String
  motivo : String
  ejercicioId : Option String
  concepto : String
deriving DecidableEq, Repr

/-- The default recommendation (progresoRoutes.js:168-173), also returned for
a brand-new learner. -/
def recomendacionDefault : Recomendacion :=
  { titulo := ""
    motivo := "Haz un ejercicio para que el tutor pueda recomendarte una práctica personalizada."
    ejercicioId := none
    concepto := "" }

/-- `hasRealErrors` (progresoRoutes.js:175): some top frequent error has a
truthy label different from the sentinel `AC_UNK`. -/
def hasRealErrors (errsF : List ErrorAgg) : Bool :=
  errsF.any (fun e => e.etiqueta != "" && e.etiqueta != "AC_UNK")

/-- The recommendation selection (progresoRoutes.js:165-217).  The storage
collaborator `Ejercicio.findOne({concepto})` is the `lookup` parameter;
`ultimoConcepto` is `ultimoResultado.ejercicio_id?.concepto`;
`efs` is `eficienciaPorConcepto`. -/
def recomendacion (lookup : String → Option EjercicioDoc)
    (errsF : List ErrorAgg) (ultimoConcepto : Option String)
    (efs : List Eficiencia) : Recomendacion :=
  if hasRealErrors errsF then
    let co := ultimoConcepto.getD ""
    if co ≠ "" then
      match lookup co with
      | some ej =>
          { titulo := if ej.titulo = "" then "Ejercicio recomendado" else ej.titulo
            motivo := "Recomendación basada en tus errores recientes."
            ejercicioId := some ej.oid
            concepto := if ej.concepto = "" then co else ej.concepto }
      | none =>
          { titulo := "Recomendación"
            motivo := "Revisa el concepto de tu última sesión y prueba un ejercicio similar."
            ejercicioId := none
            concepto := co }
    else recomendacionDefault
  else if efs.length > 0 then
    match sortDescBy (fun e => e.interacciones) efs with
    | peor :: _ =>
        match lookup peor.concepto with
        | some ej =>
            { titulo := if ej.titulo = "" then "Ejercicio recomendado" else ej.titulo
              motivo := "Te recomiendo reforzar este concepto según tu actividad reciente."
              ejercicioId := some ej.oid
              concepto := if ej.concepto = "" then peor.concepto else ej.concepto }
        | none =>
            { titulo := "Recomendación"
              motivo := "Refuerza el concepto: " ++ peor.concepto ++ "."
              ejercicioId := none
              concepto := peor.concepto }
    | [] => recomendacionDefault
  else recomendacionDefault

/-! ### JSON values and a model of `JSON.parse` (resultados.js)

`JSON.parse` is a JS builtin; we model it with an executable recursive-descent
parser over character lists following the JSON grammar (objects, arrays,
strings with escapes, numbers kept as their raw text, literals, whitespace;
later duplicate object keys override earlier ones, as in `JSON.parse`).
Surrogate-pair recombination of `\uXXXX` escapes is approximated by decoding
each escape to a single code point. -/

inductive JsonVal where
  | null : JsonVal
  | bool : Bool → JsonVal
  | num : String → JsonVal
  | str : String → JsonVal
  | arr : List JsonVal → JsonVal
  | obj : List (String × JsonVal) → JsonVal

def isJsonWs (c : Char) : Bool :=
  c = ' ' || c = '\t' || c = '\n' || c = '\r'

def skipWsL : List Char → List Char
  | [] => []
  | c :: cs => if isJsonWs c then skipWsL cs else c :: cs

def hexVal (c : Char) : Option Nat :=
  if '0' ≤ c ∧ c ≤ '9' then some (c.toNat - '0'.toNat)
  else if 'a' ≤ c ∧ c ≤ 'f' then some (c.toNat - 'a'.toNat + 10)
  else if 'A' ≤ c ∧ c ≤ 'F' then some (c.toNat - 'A'.toNat + 10)
  else none

def parseHex4 : List Char → Option (Nat × List Char)
  | a :: b :: c :: d :: rest =>
    match hexVal a, hexVal b, hexVal c, hexVal d with
    | some x, some y, some z, some w => some (((x * 16 + y) * 16 + z) * 16 + w, rest)
    | _, _, _, _ => none
  | _ => none

/-- Body of a JSON string after the opening quote; `acc` holds the decoded
characters in reverse. -/
def parseStringBody (fuel : Nat) (cs : List Char) (acc : List Char) :
    Option (String × List Char) :=
  match fuel, cs with
  | 0, _ => none
  | _, [] => none
  | fuel' + 1, c :: rest =>
    if c = '"' then some (String.mk acc.reverse, rest)
    else if c = '\\' then
      match rest with
      | [] => none
      | e :: rest2 =>
        if e = '"' then parseStringBody fuel' rest2 ('"' :: acc)
        else if e = '\\' then parseStringBody fuel' rest2 ('\\' :: acc)
        else if e = '/' then parseStringBody fuel' rest2 ('/' :: acc)
        else if e = 'b' then parseStringBody fuel' rest2 ('\x08' :: acc)
        else if e = 'f' then parseStringBody fuel' rest2 ('\x0c' :: acc)
        else if e = 'n' then parseStringBody fuel' rest2 ('\n' :: acc)
        else if e = 'r' then parseStringBody fuel' rest2 ('\r' :: acc)
        else if e = 't' then parseStringBody fuel' rest2 ('\t' :: acc)
        else if e = 'u' then
          match parseHex4 rest2 with
          | some (n, rest3) => parseStringBody fuel' rest3 (Char.ofNat n :: acc)
          | none => none
        else none
    else if c.toNat < 32 then none
    else parseStringBody fuel' rest (c :: acc)

/-- Optional fraction part of a JSON number: if the input starts with `.`,
a non-empty digit run must follow; otherwise there is no fraction part. -/
def parseFracPart (cs : List Char) : Option (List Char × List Char) :=
  match cs with
  | '.' :: r =>
    let (ds, r2) := r.span Char.isDigit
    if ds = [] then none else some ('.' :: ds, r2)
  | _ => some ([], cs)

/-- Optional exponent part of a JSON number: if the input starts with `e` or
`E`, an optional sign and a non-empty digit run must follow. -/
def parseExpPart (cs : List Char) : Option (List Char × List Char) :=
  match cs with
  | e :: r =>
    if e = 'e' ∨ e = 'E' then
      let (sgn, r1) :=
        match r with
        | s :: r2 => if s = '+' ∨ s = '-' then ([s], r2) else (([] : List Char), s :: r2)
        | [] => ([], [])
      let (ds, r2) := r1.span Char.isDigit
      if ds = [] then none else some (e :: (sgn ++ ds), r2)
    else some ([], cs)
  | [] => some ([], cs)

/-- JSON number, returned as the raw consumed characters:
`-`? (`0` | nonzero digits) (`.` digits)? (`e`/`E` sign? digits)?. -/
def parseNumberRaw (cs : List Char) : Option (List Char × List Char) :=
  let (sign, cs1) :=
    match cs with
    | '-' :: rest => ([('-' : Char)], rest)
    | _ => ([], cs)
  match cs1 with
  | [] => none
  | c :: rest =>
    if ¬ c.isDigit then none
    else
      let (intPart, cs2) :=
        if c = '0' then ([c], rest)
        else
          let (ds, r) := rest.span Char.isDigit
          (c :: ds, r)
      match parseFracPart cs2 with
      | none => none
      | some (fracPart, cs3) =>
        match parseExpPart cs3 with
        | none => none
        | some (expPart, cs4) =>
          some (sign ++ intPart ++ fracPart ++ expPart, cs4)

def startsWithL : List Char → List Char → Bool
  | [], _ => true
  | _ :: _, [] => false
  | n :: ns, h :: hs => n = h && startsWithL ns hs

mutual

def parseVal (fuel : Nat) (cs : List Char) : Option (JsonVal × List Char) :=
  match fuel with
  | 0 => none
  | fuel' + 1 =>
    match skipWsL cs with
    | [] => none
    | c :: rest =>
      if c = '{' then parseMembers fuel' rest [] true
      else if c = '[' then parseItems fuel' rest [] true
      else if c = '"' then
        match parseStringBody fuel' rest [] with
        | some (s, r) => some (JsonVal.str s, r)
        | none => none
      else if startsWithL "true".toList (c :: rest) then
        some (JsonVal.bool true, (c :: rest).drop 4)
      else if startsWithL "false".toList (c :: rest) then
        some (JsonVal.bool false, (c :: rest).drop 5)
      else if startsWithL "null".toList (c :: rest) then
        some (JsonVal.null, (c :: rest).drop 4)
      else
        match parseNumberRaw (c :: rest) with
        | some (raw, r) => some (JsonVal.num (String.mk raw), r)
        | none => none

/-- Members of an object after the `{`; `first` is true before the first
member (an immediate `}` closes the empty object). -/
def parseMembers (fuel : Nat) (cs : List Char) (acc : List (String × JsonVal))
    (first : Bool) : Option (JsonVal × List Char) :=
  match fuel with
  | 0 => none
  | fuel' + 1 =>
    match skipWsL cs with
    | [] => none
    | c :: rest =>
      if first ∧ c = '}' then some (JsonVal.obj acc.reverse, rest)
      else
        match (if c = '"' then parseStringBody fuel' rest [] else none) with
        | none => none
        | some (key, r1) =>
          match skipWsL r1 with
          | ':' :: r2 =>
            match parseVal fuel' r2 with
            | none => none
            | some (v, r3) =>
              match skipWsL r3 with
              | ',' :: r4 => parseMembers fuel' r4 ((key, v) :: acc) false
              | '}' :: r4 => some (JsonVal.obj ((key, v) :: acc).reverse, r4)
              | _ => none
          | _ => none

/-- Items of an array after the `[`. -/
def parseItems (fuel : Nat) (cs : List Char) (acc : List JsonVal)
    (first : Bool) : Option (JsonVal × List Char) :=
  match fuel with
  | 0 => none
  | fuel' + 1 =>
    match skipWsL cs with
    | [] => none
    | c :: rest =>
      if first ∧ c = ']' then some (JsonVal.arr acc.reverse, rest)
      else
        match parseVal fuel' (c :: rest) with
        | none => none
        | some (v, r1) =>
          match skipWsL r1 with
          | ',' :: r2 => parseItems fuel' r2 (v :: acc) false
          | ']' :: r2 => some (JsonVal.arr (v :: acc).reverse, r2)
          | _ => none

end

/-- `JSON.parse`: parse one value and require only whitespace after it. -/
def jsonParse (s : String) : Option JsonVal :=
  let cs := s.toList
  match parseVal (cs.length + 2) cs with
  | some (v, rest) => if skipWsL rest = [] then some v else none
  | none => none

/-! ### `extractJsonObject` (resultados.js:285-309) -/

/-- JS `String.prototype.trim` on the ASCII whitespace the claims exercise. -/
def jsTrimL (cs : List Char) : List Char :=
  ((cs.dropWhile isJsonWs).reverse.dropWhile isJsonWs).reverse

def jsTrimStr (s : String) : String := String.mk (jsTrimL s.toList)

def toLowerL (cs : List Char) : List Char := cs.map Char.toLower

/-- `s.replace(/^```(json)?/i, "")` then `.replace(/```$/i, "")` then
`.trim()` (resultados.js:291): drop one leading code fence (optionally
followed by `json` in any case), drop one trailing fence, trim. -/
def stripFences (cs : List Char) : List Char :=
  let s1 :=
    if startsWithL "```".toList cs then
      let rest := cs.drop 3
      if toLowerL (rest.take 4) = "json".toList then rest.drop 4 else rest
    else cs
  let s2 :=
    if startsWithL "```".toList s1.reverse then (s1.reverse.drop 3).reverse else s1
  jsTrimL s2

/-- `cleaned.match(/\x7b[\s\S]*\x7d/)` (resultados.js:301): the leftmost
greedy match runs from the first `{` to the last `}`; it exists iff some `}`
occurs strictly after the first `{`. -/
def braceMatch (cs : List Char) : Option (List Char) :=
  match cs.findIdx? (fun c => c = '{') with
  | none => none
  | some i =>
    match cs.reverse.findIdx? (fun c => c = '}') with
    | none => none
    | some k =>
      let j := cs.length - 1 - k
      if i < j then some ((cs.drop i).take (j - i + 1)) else none

/-- The cleaned text that `extractJsonObject` works on for a string input:
`text.trim()` then the fence stripping (the early empty-string return is
handled in `extractJsonObject` itself). -/
def cleanedOf (t : String) : List Char :=
  stripFences (jsTrimL t.toList)

/-- `extractJsonObject` (resultados.js:285-309).  A non-string input
(`undefined` content from the HTTP response) is `none`.  For a string: trim;
empty yields `null`; strip fences; if the cleaned text starts with `{` and
ends with `}`, try `JSON.parse` on all of it; otherwise (or if that parse
throws) take the greedy first-`{`-to-last-`}` match and try `JSON.parse` on
it; `null` if that fails too. -/
def extractJsonObject (text : Option String) : Option JsonVal :=
  match text with
  | none => none
  | some t =>
    let s := jsTrimL t.toList
    if s = [] then none
    else
      let cleaned := stripFences s
      let direct :=
        if startsWithL "\x7b".toList cleaned ∧ startsWithL "\x7d".toList cleaned.reverse then
          jsonParse (String.mk cleaned)
        else none
      match direct with
      | some v => some v
      | none =>
        match braceMatch cleaned with
        | none => none
        | some sub => jsonParse (String.mk sub)

/-! ### The classifier pipeline of `POST /finalizar` (resultados.js:342-490)

The remote call `callClassifier` is an external HTTP round-trip; each of the
two possible calls is modelled by its outcome: either the promise resolves
with `r?.data?.message?.content` (a string, or `undefined` = `none`), or it
rejects with a thrown error carrying a message and an optional `code`. -/

structure JSError where
  message : String
  code : Option String
deriving DecidableEq, Repr

inductive CallOutcome where
  | ret : Option String → CallOutcome
  | throw : JSError → CallOutcome
deriving DecidableEq, Repr

/-- JS truthiness of a parsed JSON value (`if (!parsed)`): `null`, `false`,
the empty string and numbers of value zero are falsy. -/
def jsFalsy : JsonVal → Bool
  | JsonVal.null => true
  | JsonVal.bool b => !b
  | JsonVal.str s => s = ""
  | JsonVal.num raw =>
    ((raw.toList.takeWhile (fun c => c ≠ 'e' ∧ c ≠ 'E')).filter Char.isDigit).all
      (fun c => c = '0')
  | _ => false

/-- `if (!parsed)` applied to an extraction result. -/
def parsedOk (p : Option JsonVal) : Option JsonVal :=
  match p with
  | some v => if jsFalsy v then none else some v
  | none => none

/-- Property access `parsed.key` on a parsed JSON value: only objects have
fields; `JSON.parse` keeps the last of duplicate keys. -/
def getField (v : JsonVal) (key : String) : Option JsonVal :=
  match v with
  | JsonVal.obj fs => (fs.filter (fun p => p.1 = key)).getLast?.map (fun p => p.2)
  | _ => none

/-- `typeof parsed.analisis === "string" && parsed.analisis.trim()` then the
trimmed assignment (resultados.js:426-431). -/
def stringCampo (v : JsonVal) (key : String) : Option String :=
  match getField v key with
  | some (JsonVal.str s) => if jsTrimStr s = "" then none else some (jsTrimStr s)
  | _ => none

/-- `Array.isArray(parsed.acs) ? parsed.acs : []` (resultados.js:433). -/
def acsOf (v : JsonVal) : List JsonVal :=
  match getField v "acs" with
  | some (JsonVal.arr xs) => xs
  | _ => []

/-- `acsFiltrados` (resultados.js:434-438): keep the string entries, trim
each, keep those in the closed vocabulary, take the first 3. -/
def acsFiltrados (allowed : List String) (v : JsonVal) : List String :=
  ((((acsOf v).filterMap (fun x =>
        match x with
        | JsonVal.str s => some s
        | _ => none)).map jsTrimStr).filter
      (fun id => allowed.contains id)).take 3

/-- `errores` built from the filtered tags (resultados.js:440-443):
`{etiqueta: id, texto: AC_MAP[id]?.name || id}`.  `acMap` models the closed
vocabulary loaded from `alternative_conceptions.json` as `(id, name)` pairs;
`ALLOWED_AC_IDS` is its key list. -/
def erroresDeTags (acMap : List (String × String)) (tags : List String) :
    List ErrorEntry :=
  tags.map (fun id =>
    { etiqueta := id
      texto :=
        match acMap.lookup id with
        | some n => if n = "" then id else n
        | none => id })

/-- The success path after a parse succeeded (resultados.js:424-443):
status `ok`, validated `analisis`/`consejo`, filtered tags. -/
def validaParsed (acMap : List (String × String)) (v : JsonVal) :
    String × Option String × Option String × List ErrorEntry :=
  ("ok", stringCampo v "analisis", stringCampo v "consejo",
    erroresDeTags acMap (acsFiltrados (acMap.map (fun p => p.1)) v))

/-- The inner `try` block (resultados.js:410-443) as a step function:
`Sum.inl` is normal completion with `(classifierStatus, analisisIA,
consejoIA, errores)`; `Sum.inr` is a thrown error together with the value
`classifierStatus` had at the moment of the throw (`"skipped"` before any
assignment, `"fail_invalid_json"` for the explicit throw after both
extractions failed). -/
def runTry (acMap : List (String × String)) (c1 c2 : CallOutcome) :
    (String × Option String × Option String × List ErrorEntry) ⊕ (String × JSError) :=
  match c1 with
  | CallOutcome.throw e => Sum.inr ("skipped", e)
  | CallOutcome.ret t1 =>
    match parsedOk (extractJsonObject t1) with
    | some p => Sum.inl (validaParsed acMap p)
    | none =>
      match c2 with
      | CallOutcome.throw e => Sum.inr ("skipped", e)
      | CallOutcome.ret t2 =>
        match parsedOk (extractJsonObject t2) with
        | some p => Sum.inl (validaParsed acMap p)
        | none =>
          Sum.inr ("fail_invalid_json",
            { message := "Clasificador devolvió contenido no-JSON o JSON inválido."
              code := none })

/-- Substring test used for `msg.toLowerCase().includes("timeout")`. -/
def containsSub (hay needle : String) : Bool :=
  decide (needle.toList <:+: hay.toList)

/-- `String(e?.message || e)`: an `Error` with an empty message stringifies
to a text that still does not contain `timeout`; we keep the message. -/
def errMsg (e : JSError) : String :=
  if e.message = "" then "Error" else e.message

/-- `msg.toLowerCase().includes("timeout") || e?.code === "ECONNABORTED"`
(resultados.js:446). -/
def isTimeoutErr (e : JSError) : Bool :=
  containsSub (String.mk (toLowerL (errMsg e).toList)) "timeout" ||
    e.code == some "ECONNABORTED"

/-- The sentinel error list attached by the catch block
(resultados.js:451-460): one `AC_UNK` entry when the conversation had at
least one message, nothing otherwise. -/
def sentinelErrores (numMensajes : Nat) (timeout : Bool) : List ErrorEntry :=
  if numMensajes > 0 then
    [{ etiqueta := "AC_UNK"
       texto :=
         if timeout then "No se pudo clasificar (timeout)"
         else "No se pudo clasificar (formato inválido)" }]
  else []

/-- The whole classifier phase including the catch block
(resultados.js:403-461): on a throw, `classifierStatus` becomes
`fail_timeout` for a timeout and otherwise keeps the value it had, and the
sentinel tag replaces the error list for a non-empty conversation. -/
def classifierResult (acMap : List (String × String)) (numMensajes : Nat)
    (c1 c2 : CallOutcome) :
    String × Option String × Option String × List ErrorEntry :=
  match runTry acMap c1 c2 with
  | Sum.inl r => r
  | Sum.inr (stAtThrow, e) =>
    let timeout := isTimeoutErr e
    ((if timeout then "fail_timeout" else stAtThrow), none, none,
      sentinelErrores numMensajes timeout)

/-- The persisted record of resultados.js:463-474, restricted to the fields
the pipeline computes (ids are opaque inputs validated upstream). -/
structure SavedResultado where
  numMensajes : Nat
  analisisIA : Option String
  consejoIA : Option String
  errores : List ErrorEntry
  resueltoALaPrimera : Bool
deriving DecidableEq, Repr

/-- The 200 response body of resultados.js:476-485. -/
structure FinalizarResponse where
  status : Nat
  message : String
  classifierStatus : String
  savedNumMensajes : Nat
  savedAnalisis : Bool
  savedConsejo : Bool
  savedErrores : List String
deriving DecidableEq, Repr

/-- JS truthiness of an optional string (`Boolean(analisisIA)`). -/
def strTruthy : Option String → Bool
  | some s => s ≠ ""
  | none => false

/-- The finalize operation from the point where the transcript was fetched
(resultados.js:363-485): run the classifier phase on the conversation's
outcomes, construct the result record, persist it (the single `save()` call
on the storage collaborator), and return the 200 response.  `numMensajes` is
the conversation length. -/
def finalizar (acMap : List (String × String)) (conv : List (String × String))
    (c1 c2 : CallOutcome) (resuelto : Bool) :
    SavedResultado × FinalizarResponse :=
  let numMensajes := conv.length
  let r := classifierResult acMap numMensajes c1 c2
  let record : SavedResultado :=
    { numMensajes := numMensajes
      analisisIA := r.2.1
      consejoIA := r.2.2.1
      errores := r.2.2.2
      resueltoALaPrimera := resuelto }
  (record,
    { status := 200
      message := "Resultado guardado con éxito."
      classifierStatus := r.1
      savedNumMensajes := numMensajes
      savedAnalisis := strTruthy r.2.1
      savedConsejo := strTruthy r.2.2.1
      savedErrores := r.2.2.2.map (fun x => x.etiqueta) })

/-! ### Claim-side definitions (statements taken from the spec's words,
for comparison with the source embedding) -/

/-- C5 as claimed: the weekly window with an *exclusive* lower bound at
`now - 7` days. -/
def inWeekExclusive (weekAgo : Int) (r : Resultado) : Bool :=
  match r.fecha with
  | some (JSDate.valid ms) => weekAgo < ms
  | _ => false

/-- C4 as literally claimed: the attached tags are exactly the elements of
the response's tag sequence that are strings belonging to the closed
vocabulary, in order, truncated to the first 3 after filtering (no
trimming). -/
def tagsClaimC4 (allowed : List String) (v : JsonVal) : List String :=
  (((acsOf v).filterMap (fun x =>
      match x with
      | JsonVal.str s => some s
      | _ => none)).filter (fun id => allowed.contains id)).take 3

/-- C4 as amended: the same pipeline with each string entry trimmed before
the vocabulary filter, as the source does. -/
def tagsTrimmedSpec (allowed : List String) (v : JsonVal) : List String :=
  ((((acsOf v).filterMap (fun x =>
      match x with
      | JsonVal.str s => some s
      | _ => none)).map jsTrimStr).filter (fun id => allowed.contains id)).take 3

/-- The count recorded for a label by the aggregation map: the `veces` field
of the first entry carrying the label, 0 when absent. -/
def vecesDe (l : List ErrorAgg) (lab : String) : Nat :=
  match l.find? (fun a => a.etiqueta == lab) with
  | some a => a.veces
  | none => 0

/-- Number of occurrences of a tag label across all of a learner's records
(the flattened error lists). -/
def countLabel (rs : List Resultado) (lab : String) : Nat :=
  ((rs.flatMap (fun r => r.errores)).filter (fun e => e.etiqueta == lab)).length

/-- Invariant of the error-aggregation accumulator: entry labels are
pairwise distinct and never empty. -/
def invAgg (l : List ErrorAgg) : Prop :=
  (l.map (fun a => a.etiqueta)).Nodup ∧ ∀ a ∈ l, a.etiqueta ≠ ""

/-! ## Helper lemmas -/

theorem insertDescBy_perm {α β : Type} [LinearOrder β] (key : α → β) (x : α)
    (l : List α) : List.Perm (insertDescBy key x l) (x :: l) := by
  induction l with
  | nil => simp [insertDescBy]
  | cons y ys ih =>
    simp only [insertDescBy]
    split
    · exact (ih.cons y).trans (List.Perm.swap x y ys)
    · rfl

theorem sortDescBy_perm {α β : Type} [LinearOrder β] (key : α → β) (l : List α) :
    List.Perm (sortDescBy key l) l := by
  induction l with
  | nil => simp [sortDescBy]
  | cons x xs ih => exact (insertDescBy_perm key x _).trans (ih.cons x)

theorem insertDescBy_pairwise {α β : Type} [LinearOrder β] (key : α → β) (x : α)
    (l : List α) (h : List.Pairwise (fun a b => key b ≤ key a) l) :
    List.Pairwise (fun a b => key b ≤ key a) (insertDescBy key x l) := by
  induction l with
  | nil => simp [insertDescBy]
  | cons y ys ih =>
    rcases List.pairwise_cons.mp h with ⟨hy, hys⟩
    simp only [insertDescBy]
    split
    · refine List.pairwise_cons.mpr ⟨?_, ih hys⟩
      intro b hb
      rcases List.mem_cons.mp ((insertDescBy_perm key x ys).mem_iff.mp hb) with rfl | hbm
      · exact le_of_lt (by assumption)
      · exact hy b hbm
    · have hxy : key y ≤ key x := le_of_not_lt (by assumption)
      refine List.pairwise_cons.mpr ⟨?_, List.pairwise_cons.mpr ⟨hy, hys⟩⟩
      intro b hb
      rcases List.mem_cons.mp hb with rfl | hbm
      · exact hxy
      · exact le_trans (hy b hbm) hxy

theorem sortDescBy_pairwise {α β : Type} [LinearOrder β] (key : α → β)
    (l : List α) :
    List.Pairwise (fun a b => key b ≤ key a) (sortDescBy key l) := by
  induction l with
  | nil => simp [sortDescBy]
  | cons x xs ih => exact insertDescBy_pairwise key x _ ih

theorem insertDescBy_filter {α β : Type} [LinearOrder β] (key : α → β) (x : α)
    (l : List α) (v : β) :
    (insertDescBy key x l).filter (fun a => key a == v) =
      if key x = v then x :: l.filter (fun a => key a == v)
      else l.filter (fun a => key a == v) := by
  induction l with
  | nil => by_cases hx : key x = v <;> simp [insertDescBy, List.filter_cons, hx]
  | cons y ys ih =>
    simp only [insertDescBy]
    split
    · have hlt : key x < key y := by assumption
      by_cases hx : key x = v
      · have hy : ¬ (key y = v) := fun hyv => absurd (hx ▸ hyv ▸ hlt) (lt_irrefl _)
        simp [List.filter_cons, hx, hy, ih]
      · by_cases hy : key y = v <;> simp [List.filter_cons, hx, hy, ih]
    · by_cases hx : key x = v <;> by_cases hy : key y = v <;>
        simp [List.filter_cons, hx, hy]

theorem sortDescBy_filter {α β : Type} [LinearOrder β] (key : α → β)
    (l : List α) (v : β) :
    (sortDescBy key l).filter (fun a => key a == v) =
      l.filter (fun a => key a == v) := by
  induction l with
  | nil => rfl
  | cons x xs ih =>
    simp only [sortDescBy, insertDescBy_filter, ih]
    by_cases hx : key x = v <;> simp [List.filter_cons, hx]

theorem sortDescBy_head_max {α β : Type} [LinearOrder β] (key : α → β)
    (l : List α) (peor : α) (rest : List α)
    (h : sortDescBy key l = peor :: rest) :
    peor ∈ l ∧ ∀ e ∈ l, key e ≤ key peor := by
  have hperm := sortDescBy_perm key l
  rw [h] at hperm
  have hpw := sortDescBy_pairwise key l
  rw [h] at hpw
  rcases List.pairwise_cons.mp hpw with ⟨hhead, _⟩
  refine ⟨hperm.mem_iff.mp (List.mem_cons_self peor rest), ?_⟩
  intro e he
  rcases List.mem_cons.mp (hperm.symm.mem_iff.mp he) with rfl | hm
  · exact le_refl _
  · exact hhead e hm

theorem streakRun_pos (l : List Int) : 1 ≤ streakRun l := by
  match l with
  | [] => simp [streakRun]
  | [a] => simp [streakRun]
  | a :: b :: rest =>
    simp only [streakRun]
    split <;> omega

/-! ## Claims -/

/-- C2: `computeStreak` returns 0 when no input yields a valid day-key;
otherwise it walks backward over the sorted distinct day-keys and the result
is at least 1 as soon as one timestamp is parseable; on concrete data,
a single day gives 1, three consecutive days give 3, and a 3-day gap
breaks the chain at 1. -/
theorem computeStreak_spec (dates : List (Option JSDate)) :
    ((dates.filterMap dayKeyMadrid = []) → computeStreak dates = 0) ∧
    (∀ k, k ∈ dates.filterMap dayKeyMadrid → 1 ≤ computeStreak dates) ∧
    computeStreak [some (JSDate.valid (10 * msPerDay))] = 1 ∧
    computeStreak [some (JSDate.valid (10 * msPerDay)),
      some (JSDate.valid (9 * msPerDay)), some (JSDate.valid (8 * msPerDay))] = 3 ∧
    computeStreak [some (JSDate.valid (10 * msPerDay)),
      some (JSDate.valid (7 * msPerDay))] = 1 := by
  refine ⟨?_, ?_, by decide, by decide, by decide⟩
  · intro h
    simp [computeStreak, h]
  · intro k hk
    have hne : (dates.filterMap dayKeyMadrid).dedup ≠ [] :=
      List.ne_nil_of_mem (List.mem_dedup.mpr hk)
    simp only [computeStreak]
    rw [if_neg hne]
    exact streakRun_pos _

theorem computeStreak_spec_witness :
    computeStreak [] = 0 ∧ 1 ≤ computeStreak [some (JSDate.valid 5)] :=
  ⟨(computeStreak_spec []).1 rfl,
    (computeStreak_spec [some (JSDate.valid 5)]).2.1 (civilDayIndex 5) (by decide)⟩

/-- C8: `computeStreak` depends only on the set of calendar day-keys of its
input: two timestamp lists whose elements normalize to the same set of
day-keys (any order, any duplication) get the same streak. -/
theorem computeStreak_dayset_invariant (l1 l2 : List (Option JSDate))
    (h : ∀ k : Int, k ∈ l1.filterMap dayKeyMadrid ↔ k ∈ l2.filterMap dayKeyMadrid) :
    computeStreak l1 = computeStreak l2 := by
  have nd1 : (l1.filterMap dayKeyMadrid).dedup.Nodup := List.nodup_dedup _
  have nd2 : (l2.filterMap dayKeyMadrid).dedup.Nodup := List.nodup_dedup _
  have hmem : ∀ a, a ∈ (l1.filterMap dayKeyMadrid).dedup ↔
      a ∈ (l2.filterMap dayKeyMadrid).dedup := by
    intro a
    rw [List.mem_dedup, List.mem_dedup]
    exact h a
  have hperm := (List.perm_ext_iff_of_nodup nd1 nd2).mpr hmem
  have hsorteq :
      List.insertionSort (· ≤ ·) (l1.filterMap dayKeyMadrid).dedup =
        List.insertionSort (· ≤ ·) (l2.filterMap dayKeyMadrid).dedup :=
    List.eq_of_perm_of_sorted
      ((List.perm_insertionSort _ _).trans
        (hperm.trans (List.perm_insertionSort _ _).symm))
      (List.sorted_insertionSort _ _) (List.sorted_insertionSort _ _)
  by_cases h1 : (l1.filterMap dayKeyMadrid).dedup = []
  · have h2 : (l2.filterMap dayKeyMadrid).dedup = [] := (h1 ▸ hperm.symm).eq_nil
    simp [computeStreak, h1, h2]
  · have h2 : (l2.filterMap dayKeyMadrid).dedup ≠ [] := by
      intro hh
      exact h1 (hh ▸ hperm).eq_nil
    simp only [computeStreak]
    rw [if_neg h1, if_neg h2, hsorteq]

theorem computeStreak_dayset_invariant_witness :
    computeStreak [some (JSDate.valid 5), some JSDate.invalid, none,
        some (JSDate.valid (2 * msPerDay)), some (JSDate.valid 5)] =
      computeStreak [some (JSDate.valid (2 * msPerDay)), some (JSDate.valid 5)] := by
  refine computeStreak_dayset_invariant _ _ ?_
  intro k
  show k ∈ [civilDayIndex 5, civilDayIndex (2 * msPerDay), civilDayIndex 5] ↔
    k ∈ [civilDayIndex (2 * msPerDay), civilDayIndex 5]
  simp [List.mem_cons]
  tauto

theorem inWeek_iff (weekAgo : Int) (r : Resultado) :
    inWeek weekAgo r = true ↔
      ∃ ms, r.fecha = some (JSDate.valid ms) ∧ weekAgo ≤ ms := by
  cases hf : r.fecha with
  | none => simp [inWeek, hf]
  | some d =>
    cases d with
    | invalid => simp [inWeek, hf]
    | valid ms => simp [inWeek, hf]

/-- C5 counterexample: a record timestamped exactly at `now - 7` days.  The
code's filter (`>=`, progresoRoutes.js:115) keeps it and counts its exercise,
while the claimed exclusive bound would drop it and count nothing. -/
theorem weekly_window_boundary_counterexample :
    ejerciciosCompletados 0
        [⟨some (JSDate.valid 0), none, none, EjercicioRef.raw "E1", 0, none, none, []⟩] = 1 ∧
    (((([(⟨some (JSDate.valid 0), none, none, EjercicioRef.raw "E1", 0, none, none,
            []⟩ : Resultado)].filter (inWeekExclusive 0)).filterMap
          (fun r => ejercicioIdStr r.ejercicio)).filter (fun s => s ≠ "")).dedup).length = 0 ∧
    inWeek 0 ⟨some (JSDate.valid 0), none, none, EjercicioRef.raw "E1", 0, none, none, []⟩ = true ∧
    inWeekExclusive 0
      ⟨some (JSDate.valid 0), none, none, EjercicioRef.raw "E1", 0, none, none, []⟩ = false := by
  refine ⟨by decide, by decide, by decide, by decide⟩

/-- C5 amended: the weekly summary counts are computed over exactly the
records whose `fecha` parses to an instant within the last 7 days with an
INCLUSIVE lower bound at `now - 7` days (wall-clock subtraction): a record
timestamped exactly at `now - 7` days is included. -/
theorem weekly_window_spec (weekAgo : Int) (rs : List Resultado) :
    (∀ r, r ∈ resultadosSemana weekAgo rs ↔
      (r ∈ rs ∧ ∃ ms, r.fecha = some (JSDate.valid ms) ∧ weekAgo ≤ ms)) ∧
    (∀ r, r.fecha = some (JSDate.valid weekAgo) → inWeek weekAgo r = true) ∧
    (∀ now : Int, haceUnaSemana now = now - 7 * 24 * 60 * 60 * 1000) := by
  refine ⟨?_, ?_, ?_⟩
  · intro r
    rw [resultadosSemana, List.mem_filter, inWeek_iff]
  · intro r hf
    rw [inWeek_iff]
    exact ⟨weekAgo, hf, le_refl _⟩
  · intro now
    simp [haceUnaSemana, msPerDay]

theorem weekly_window_spec_witness :
    inWeek 0 ⟨some (JSDate.valid 0), none, none, EjercicioRef.nulo, 0, none, none, []⟩ = true ∧
    (⟨some (JSDate.valid 0), none, none, EjercicioRef.nulo, 0, none, none, []⟩ : Resultado) ∈
      resultadosSemana 0
        [⟨some (JSDate.valid 0), none, none, EjercicioRef.nulo, 0, none, none, []⟩] :=
  ⟨(weekly_window_spec 0 []).2.1 _ rfl,
    ((weekly_window_spec 0
        [⟨some (JSDate.valid 0), none, none, EjercicioRef.nulo, 0, none, none, []⟩]).1 _).mpr
      ⟨List.mem_singleton_self _, 0, rfl, le_refl 0⟩⟩

theorem computeStreak_singleton (ms : Int) :
    computeStreak [some (JSDate.valid ms)] = 1 := by
  simp [computeStreak, dayKeyMadrid, streakRun]

/-- C10: the streak input for each record is `fecha || createdAt ||
updatedAt` while the weekly filter tests only `fecha`; a record with no
`fecha` but a valid `createdAt` (or `updatedAt`) can contribute a day to the
streak yet is always excluded from the weekly distinct-exercise and
distinct-concept counts. -/
theorem streak_weekly_field_mismatch (weekAgo : Int) (rs : List Resultado)
    (r : Resultado) (hf : r.fecha = none) :
    (r ∉ resultadosSemana weekAgo rs) ∧
    (∀ ms, r.createdAt = some (JSDate.valid ms) →
      fechaActividad r = some (JSDate.valid ms) ∧
        computeStreak [fechaActividad r] = 1) ∧
    (∀ ms, r.createdAt = none → r.updatedAt = some (JSDate.valid ms) →
      fechaActividad r = some (JSDate.valid ms) ∧
        computeStreak [fechaActividad r] = 1) ∧
    ejerciciosCompletados weekAgo [r] = 0 ∧
    conceptosDistintos weekAgo [r] = 0 := by
  have hnw : inWeek weekAgo r = false := by
    rw [inWeek, hf]
  refine ⟨?_, ?_, ?_, ?_, ?_⟩
  · intro hmem
    have := (List.mem_filter.mp hmem).2
    rw [hnw] at this
    exact Bool.false_ne_true this
  · intro ms hc
    have hfa : fechaActividad r = some (JSDate.valid ms) := by
      simp [fechaActividad, hf, hc, Option.orElse]
    exact ⟨hfa, by rw [hfa]; exact computeStreak_singleton ms⟩
  · intro ms hc hu
    have hfa : fechaActividad r = some (JSDate.valid ms) := by
      simp [fechaActividad, hf, hc, hu, Option.orElse]
    exact ⟨hfa, by rw [hfa]; exact computeStreak_singleton ms⟩
  · simp [ejerciciosCompletados, resultadosSemana, List.filter, hnw]
  · simp [conceptosDistintos, resultadosSemana, List.filter, hnw]

theorem streak_weekly_field_mismatch_witness :
    ((⟨none, some (JSDate.valid 5), none, EjercicioRef.raw "E1", 2, none, none,
        []⟩ : Resultado) ∉
      resultadosSemana 0
        [⟨none, some (JSDate.valid 5), none, EjercicioRef.raw "E1", 2, none, none, []⟩]) ∧
    computeStreak [fechaActividad
      ⟨none, some (JSDate.valid 5), none, EjercicioRef.raw "E1", 2, none, none, []⟩] = 1 :=
  ⟨(streak_weekly_field_mismatch 0 _ _ rfl).1,
    ((streak_weekly_field_mismatch 0
        [⟨none, some (JSDate.valid 5), none, EjercicioRef.raw "E1", 2, none, none, []⟩]
        ⟨none, some (JSDate.valid 5), none, EjercicioRef.raw "E1", 2, none, none, []⟩
        rfl).2.1 5 rfl).2⟩

/-- C1: for every outcome of the two classifier calls (successful JSON,
malformed output on both attempts, timeout, or any other thrown error) the
finalize operation still constructs the result record, persists it and
returns the 200 success response; a thrown classifier error is downgraded to
a non-`ok` status plus the sentinel `AC_UNK` tag (for a non-empty
conversation) and never surfaces as a failure of the request. -/
theorem finalizar_always_succeeds (acMap : List (String × String))
    (conv : List (String × String)) (c1 c2 : CallOutcome) (resuelto : Bool) :
    (finalizar acMap conv c1 c2 resuelto).2.status = 200 ∧
    (finalizar acMap conv c1 c2 resuelto).2.message = "Resultado guardado con éxito." ∧
    (finalizar acMap conv c1 c2 resuelto).1.numMensajes = conv.length ∧
    (finalizar acMap conv c1 c2 resuelto).1.resueltoALaPrimera = resuelto ∧
    (finalizar acMap conv c1 c2 resuelto).2.savedErrores =
      (finalizar acMap conv c1 c2 resuelto).1.errores.map (fun x => x.etiqueta) ∧
    (∀ e, c1 = CallOutcome.throw e →
      (finalizar acMap conv c1 c2 resuelto).2.classifierStatus ≠ "ok" ∧
      (conv ≠ [] →
        (finalizar acMap conv c1 c2 resuelto).2.savedErrores = ["AC_UNK"])) := by
  refine ⟨rfl, rfl, rfl, rfl, rfl, ?_⟩
  rintro e rfl
  constructor
  · show (if isTimeoutErr e then "fail_timeout" else "skipped") ≠ "ok"
    split <;> decide
  · intro hne
    show (sentinelErrores conv.length (isTimeoutErr e)).map (fun x => x.etiqueta) =
      ["AC_UNK"]
    rw [sentinelErrores, if_pos (List.length_pos.mpr hne)]
    rfl

theorem finalizar_always_succeeds_witness :
    (finalizar [] [("user", "hola")] (CallOutcome.throw ⟨"boom", none⟩)
      (CallOutcome.ret none) false).2.status = 200 ∧
    (finalizar [] [("user", "hola")] (CallOutcome.throw ⟨"boom", none⟩)
      (CallOutcome.ret none) false).2.savedErrores = ["AC_UNK"] :=
  ⟨(finalizar_always_succeeds [] [("user", "hola")] (CallOutcome.throw ⟨"boom", none⟩)
      (CallOutcome.ret none) false).1,
    ((finalizar_always_succeeds [] [("user", "hola")] (CallOutcome.throw ⟨"boom", none⟩)
      (CallOutcome.ret none) false).2.2.2.2.2 ⟨"boom", none⟩ rfl).2 (by decide)⟩

/-- C3 counterexample: a thrown classifier error that is neither a timeout
nor the explicit double-extraction failure (for instance a connection
refusal) leaves `classifierStatus` at its initial value `"skipped"` — it
does not become `"fail_invalid_json"` as the claim states. -/
theorem classifier_status_counterexample :
    (classifierResult [] 1 (CallOutcome.throw ⟨"connect ECONNREFUSED", none⟩)
        (CallOutcome.ret none)).1 = "skipped" ∧
    isTimeoutErr ⟨"connect ECONNREFUSED", none⟩ = false ∧
    "skipped" ≠ "fail_invalid_json" ∧
    (classifierResult [] 1 (CallOutcome.throw ⟨"connect ECONNREFUSED", none⟩)
        (CallOutcome.ret none)).2.2.2 =
      [⟨"AC_UNK", "No se pudo clasificar (formato inválido)"⟩] :=
  ⟨rfl, by decide, by decide, rfl⟩

/-- C3 amended: when the classifier path throws, a timeout (by message or
error code) yields status `fail_timeout`; any other thrown error leaves the
status unchanged — `fail_invalid_json` when the two failed JSON extractions
already set it, otherwise the initial `skipped`; and on any such failure
exactly one sentinel `AC_UNK` tag is attached when the conversation has at
least one message, none when it is empty. -/
theorem classifier_status_spec (acMap : List (String × String)) (n : Nat)
    (c2 : CallOutcome) (e : JSError) :
    (isTimeoutErr e = true →
      classifierResult acMap n (CallOutcome.throw e) c2 =
        ("fail_timeout", none, none, sentinelErrores n true)) ∧
    (isTimeoutErr e = false →
      classifierResult acMap n (CallOutcome.throw e) c2 =
        ("skipped", none, none, sentinelErrores n false)) ∧
    (∀ t1, extractJsonObject t1 = none →
      (isTimeoutErr e = true →
        classifierResult acMap n (CallOutcome.ret t1) (CallOutcome.throw e) =
          ("fail_timeout", none, none, sentinelErrores n true)) ∧
      (isTimeoutErr e = false →
        classifierResult acMap n (CallOutcome.ret t1) (CallOutcome.throw e) =
          ("skipped", none, none, sentinelErrores n false))) ∧
    (∀ t1 t2, extractJsonObject t1 = none → extractJsonObject t2 = none →
      classifierResult acMap n (CallOutcome.ret t1) (CallOutcome.ret t2) =
        ("fail_invalid_json", none, none, sentinelErrores n false)) ∧
    (∀ b : Bool,
      (0 < n → (sentinelErrores n b).map (fun x => x.etiqueta) = ["AC_UNK"]) ∧
      (n = 0 → sentinelErrores n b = [])) := by
  refine ⟨?_, ?_, ?_, ?_, ?_⟩
  · intro h
    simp [classifierResult, runTry, h]
  · intro h
    simp [classifierResult, runTry, h]
  · intro t1 h1
    constructor <;> intro h <;>
      simp [classifierResult, runTry, h1, parsedOk, h]
  · intro t1 t2 h1 h2
    have hto : isTimeoutErr
        ⟨"Clasificador devolvió contenido no-JSON o JSON inválido.", none⟩ = false := by
      decide
    simp [classifierResult, runTry, h1, h2, parsedOk, hto]
  · intro b
    constructor
    · intro hn
      rw [sentinelErrores, if_pos hn]
      rfl
    · rintro rfl
      rfl

theorem classifier_status_spec_witness :
    classifierResult [] 1 (CallOutcome.throw ⟨"timeout of 240000ms exceeded", none⟩)
        (CallOutcome.ret none) =
      ("fail_timeout", none, none, sentinelErrores 1 true) ∧
    classifierResult [] 1 (CallOutcome.ret (some "garbage"))
        (CallOutcome.ret (some "more garbage")) =
      ("fail_invalid_json", none, none, sentinelErrores 1 false) :=
  ⟨(classifier_status_spec [] 1 (CallOutcome.ret none)
      ⟨"timeout of 240000ms exceeded", none⟩).1 (by decide),
    (classifier_status_spec [] 1 (CallOutcome.ret none)
      ⟨"timeout of 240000ms exceeded", none⟩).2.2.2.1
      (some "garbage") (some "more garbage") rfl rfl⟩

/-- C4 counterexample: the source trims each tag string before the
vocabulary check (resultados.js:436), so a padded `" AC1 "` — not itself an
element of the vocabulary — is attached (as `"AC1"`), while the claim
predicts no attached tags. -/
theorem tag_filter_counterexample :
    acsFiltrados ["AC1"]
        (JsonVal.obj [("acs", JsonVal.arr [JsonVal.str " AC1 "])]) = ["AC1"] ∧
    tagsClaimC4 ["AC1"]
        (JsonVal.obj [("acs", JsonVal.arr [JsonVal.str " AC1 "])]) = [] ∧
    (["AC1"] : List String) ≠ [] :=
  ⟨by decide, by decide, by decide⟩

/-- C4 amended: the attached tags are exactly the string elements of the
response's tag sequence that, after trimming surrounding whitespace, belong
to the closed vocabulary (attached in trimmed form), in order, truncated to
the first 3 such entries after filtering; unknown IDs are silently dropped,
so at most 3 tags are ever attached; the claim's example is unaffected by
trimming and holds as stated. -/
theorem tag_filter_spec (allowed : List String) (v : JsonVal) :
    acsFiltrados allowed v = tagsTrimmedSpec allowed v ∧
    (acsFiltrados allowed v).length ≤ 3 ∧
    (∀ id, id ∈ acsFiltrados allowed v → allowed.contains id = true) ∧
    acsFiltrados ["AC1", "AC2", "AC3"]
      (JsonVal.obj [("acs", JsonVal.arr [JsonVal.str "AC1", JsonVal.str "BOGUS",
        JsonVal.str "AC2", JsonVal.str "AC3", JsonVal.str "AC4"])]) =
      ["AC1", "AC2", "AC3"] := by
  refine ⟨rfl, List.length_take_le 3 _, ?_, by decide⟩
  intro id hid
  exact List.of_mem_filter (List.mem_of_mem_take hid)

theorem tag_filter_spec_witness :
    List.contains ["AC1"] "AC1" = true :=
  (tag_filter_spec ["AC1"]
      (JsonVal.obj [("acs", JsonVal.arr [JsonVal.str "AC1"])])).2.2.1
    "AC1" (by decide)

theorem braceMatch_ne_none_of_wrap (cs : List Char)
    (h1 : startsWithL "\x7b".toList cs = true)
    (h2 : startsWithL "\x7d".toList cs.reverse = true) :
    braceMatch cs ≠ none := by
  cases cs with
  | nil => simp [startsWithL] at h1
  | cons c t =>
    have hc : c = '{' := by
      have := h1
      simp [startsWithL] at this
      exact this.symm
    subst hc
    rcases htr : t.reverse with _ | ⟨d, t2⟩
    · have ht : t = [] := by simpa using congrArg List.reverse htr
      subst ht
      simp [startsWithL] at h2
    · have hd : d = '}' := by
        rw [List.reverse_cons, htr] at h2
        have := h2
        simp [startsWithL] at this
        exact this.symm
      subst hd
      have hlen : 1 ≤ t.length := by
        have := congrArg List.length htr
        simp at this
        omega
      have hf1 : List.findIdx? (fun c => c = '{') ('{' :: t) = some 0 := by
        simp [List.findIdx?_cons]
      have hf2 : ('{' :: t).reverse.findIdx? (fun c => c = '}') = some 0 := by
        rw [List.reverse_cons, htr]
        simp [List.findIdx?_cons]
      simp only [braceMatch, hf1, hf2]
      have hij : 0 < ('{' :: t).length - 1 - 0 := by
        simp
        omega
      rw [if_pos hij]
      simp

/-- C6: `extractJsonObject` first strips a markdown code-fence wrapper; if
the remaining text is a single complete JSON object it parses it; otherwise
it locates and parses the first `{...}` substring (the regex's leftmost
greedy match, from the first `{` to the last `}`); it returns null when no
valid JSON object is found; and a null extraction makes the pipeline proceed
exactly as if the first call had returned nothing, i.e. it triggers the
second classifier call. -/
theorem extractJsonObject_spec :
    extractJsonObject none = none ∧
    extractJsonObject (some "```json\n\x7b\"acs\":[\"AC1\"]\x7d\n```") =
      some (JsonVal.obj [("acs", JsonVal.arr [JsonVal.str "AC1"])]) ∧
    extractJsonObject (some "no json here") = none ∧
    (∀ (t : String) (v : JsonVal),
      startsWithL "\x7b".toList (cleanedOf t) = true →
      startsWithL "\x7d".toList (cleanedOf t).reverse = true →
      jsonParse (String.mk (cleanedOf t)) = some v →
      extractJsonObject (some t) = some v) ∧
    (∀ t : String, braceMatch (cleanedOf t) = none →
      extractJsonObject (some t) = none) ∧
    (∀ (acMap : List (String × String)) (n : Nat) (t : Option String)
        (c2 : CallOutcome), extractJsonObject t = none →
      classifierResult acMap n (CallOutcome.ret t) c2 =
        classifierResult acMap n (CallOutcome.ret none) c2) := by
  refine ⟨rfl, rfl, rfl, ?_, ?_, ?_⟩
  · intro t v h1 h2 hp
    have hs : jsTrimL t.toList ≠ [] := by
      intro hnil
      rw [cleanedOf, hnil] at h1
      simp [stripFences, jsTrimL, startsWithL] at h1
    have hp' : jsonParse (String.mk (stripFences (jsTrimL t.toList))) = some v := hp
    have h1' : startsWithL "\x7b".toList (stripFences (jsTrimL t.toList)) = true := h1
    have h2' : startsWithL "\x7d".toList (stripFences (jsTrimL t.toList)).reverse = true := h2
    simp only [extractJsonObject]
    rw [if_neg hs]
    rw [if_pos ⟨h1', h2'⟩]
    rw [hp']
  · intro t hb
    have hb' : braceMatch (stripFences (jsTrimL t.toList)) = none := hb
    by_cases hs : jsTrimL t.toList = []
    · simp only [extractJsonObject]
      rw [if_pos hs]
    · have hcond : ¬ (startsWithL "\x7b".toList (stripFences (jsTrimL t.toList)) = true ∧
          startsWithL "\x7d".toList (stripFences (jsTrimL t.toList)).reverse = true) := by
        rintro ⟨h1, h2⟩
        exact braceMatch_ne_none_of_wrap _ h1 h2 hb'
      simp only [extractJsonObject]
      rw [if_neg hs]
      rw [if_neg hcond]
      rw [hb']
  · intro acMap n t c2 he
    simp only [classifierResult, runTry]
    rw [he]
    rfl

theorem extractJsonObject_spec_witness :
    classifierResult [] 0 (CallOutcome.ret (some "no json here"))
        (CallOutcome.ret none) =
      classifierResult [] 0 (CallOutcome.ret none) (CallOutcome.ret none) :=
  extractJsonObject_spec.2.2.2.2.2 [] 0 (some "no json here")
    (CallOutcome.ret none) rfl

theorem mapaErrores_eq_flat (rs : List Resultado) :
    mapaErrores rs = (rs.flatMap (fun r => r.errores)).foldl registraError [] := by
  suffices h : ∀ (rs : List Resultado) (acc : List ErrorAgg),
      rs.foldl (fun acc r => r.errores.foldl registraError acc) acc =
        (rs.flatMap (fun r => r.errores)).foldl registraError acc from h rs []
  intro rs
  induction rs with
  | nil => intro acc; rfl
  | cons r t ih =>
    intro acc
    rw [List.foldl_cons, List.flatMap_cons, List.foldl_append]
    exact ih _

theorem vecesDe_cons (a : ErrorAgg) (t : List ErrorAgg) (lab : String) :
    vecesDe (a :: t) lab = if a.etiqueta = lab then a.veces else vecesDe t lab := by
  by_cases h : a.etiqueta = lab
  · rw [vecesDe, List.find?_cons_of_pos _ (by simp [h]), if_pos h]
  · rw [vecesDe, List.find?_cons_of_neg _ (by simp [h]), if_neg h]
    rfl

theorem vecesDe_eq_zero_of_not_any (acc : List ErrorAgg) (lab : String)
    (h : acc.any (fun a => a.etiqueta == lab) = false) : vecesDe acc lab = 0 := by
  rw [vecesDe, List.find?_eq_none.mpr]
  intro a ha
  have := List.any_eq_false.mp h a ha
  simpa using this

theorem vecesDe_map_ne (acc : List ErrorAgg) (key lab : String) (hne : key ≠ lab) :
    vecesDe (acc.map (fun a =>
        if a.etiqueta = key then { a with veces := a.veces + 1 } else a)) lab =
      vecesDe acc lab := by
  induction acc with
  | nil => rfl
  | cons a t ih =>
    have hga : (if a.etiqueta = key then { a with veces := a.veces + 1 } else a).etiqueta =
        a.etiqueta := by
      split <;> rfl
    rw [List.map_cons, vecesDe_cons, vecesDe_cons, hga]
    by_cases ha : a.etiqueta = lab
    · rw [if_pos ha, if_pos ha]
      have hak : ¬ a.etiqueta = key := fun hh => hne (hh.symm.trans ha)
      rw [if_neg hak]
    · rw [if_neg ha, if_neg ha, ih]

theorem vecesDe_map_eq (acc : List ErrorAgg) (lab : String) :
    acc.any (fun a => a.etiqueta == lab) = true →
    vecesDe (acc.map (fun a =>
        if a.etiqueta = lab then { a with veces := a.veces + 1 } else a)) lab =
      vecesDe acc lab + 1 := by
  induction acc with
  | nil => intro hin; simp at hin
  | cons a t ih =>
    intro hin
    have hga : (if a.etiqueta = lab then { a with veces := a.veces + 1 } else a).etiqueta =
        a.etiqueta := by
      split <;> rfl
    rw [List.map_cons, vecesDe_cons, vecesDe_cons, hga]
    by_cases ha : a.etiqueta = lab
    · rw [if_pos ha, if_pos ha, if_pos ha]
    · rw [if_neg ha, if_neg ha]
      apply ih
      simpa [List.any_cons, ha] using hin

theorem vecesDe_append_single (acc : List ErrorAgg) (x : ErrorAgg) (lab : String) :
    vecesDe (acc ++ [x]) lab =
      if acc.any (fun a => a.etiqueta == lab) = true then vecesDe acc lab
      else if x.etiqueta = lab then x.veces else 0 := by
  induction acc with
  | nil =>
    simp only [List.nil_append, List.any_nil]
    rw [vecesDe_cons]
    simp [vecesDe]
  | cons a t ih =>
    rw [List.cons_append, vecesDe_cons, List.any_cons]
    by_cases ha : a.etiqueta = lab
    · rw [if_pos ha]
      have : (a.etiqueta == lab || t.any fun a => a.etiqueta == lab) = true := by
        simp [ha]
      rw [if_pos this, vecesDe_cons, if_pos ha]
    · rw [if_neg ha, ih]
      have hhead : (a.etiqueta == lab) = false := by simp [ha]
      rw [hhead]
      simp only [Bool.false_or]
      by_cases ht : t.any (fun a => a.etiqueta == lab) = true
      · rw [if_pos ht, if_pos ht, vecesDe_cons, if_neg ha]
      · rw [if_neg ht, if_neg ht]

theorem vecesDe_registraError (acc : List ErrorAgg) (e : ErrorEntry) (lab : String)
    (hlab : lab ≠ "") :
    vecesDe (registraError acc e) lab =
      vecesDe acc lab + (if e.etiqueta = lab then 1 else 0) := by
  by_cases he : e.etiqueta = ""
  · rw [registraError, if_pos he]
    have hne : ¬ e.etiqueta = lab := fun hh => hlab (hh.symm.trans he)
    rw [if_neg hne, Nat.add_zero]
  · rw [registraError, if_neg he]
    by_cases hp : acc.any (fun a => a.etiqueta == e.etiqueta) = true
    · rw [if_pos hp]
      by_cases hel : e.etiqueta = lab
      · subst hel
        rw [vecesDe_map_eq acc _ hp, if_pos rfl]
      · rw [vecesDe_map_ne acc _ _ hel, if_neg hel, Nat.add_zero]
    · rw [if_neg hp, vecesDe_append_single]
      by_cases hel : e.etiqueta = lab
      · have hany : acc.any (fun a => a.etiqueta == lab) = false := by
          rw [← hel]
          exact Bool.not_eq_true _ |>.mp hp
        simp [hany, hel, vecesDe_eq_zero_of_not_any acc lab hany]
      · by_cases hany : acc.any (fun a => a.etiqueta == lab) = true
        · rw [if_pos hany, if_neg hel, Nat.add_zero]
        · rw [if_neg hany, if_neg hel, Nat.add_zero,
            vecesDe_eq_zero_of_not_any acc lab (Bool.not_eq_true _ |>.mp hany)]

theorem vecesDe_foldl (es : List ErrorEntry) (acc : List ErrorAgg) (lab : String)
    (hlab : lab ≠ "") :
    vecesDe (es.foldl registraError acc) lab =
      vecesDe acc lab + (es.filter (fun e => e.etiqueta == lab)).length := by
  induction es generalizing acc with
  | nil => simp
  | cons e t ih =>
    rw [List.foldl_cons, ih, vecesDe_registraError acc e lab hlab]
    by_cases hel : e.etiqueta = lab
    · simp [List.filter_cons, hel]
      omega
    · simp [List.filter_cons, hel]

theorem invAgg_registraError (acc : List ErrorAgg) (e : ErrorEntry)
    (h : invAgg acc) : invAgg (registraError acc e) := by
  rcases h with ⟨hnd, hne⟩
  by_cases he : e.etiqueta = ""
  · rw [registraError, if_pos he]
    exact ⟨hnd, hne⟩
  · rw [registraError, if_neg he]
    by_cases hp : acc.any (fun a => a.etiqueta == e.etiqueta) = true
    · rw [if_pos hp]
      constructor
      · have hmap : (acc.map (fun a =>
            if a.etiqueta = e.etiqueta then { a with veces := a.veces + 1 } else a)).map
              (fun a => a.etiqueta) = acc.map (fun a => a.etiqueta) := by
          rw [List.map_map]
          apply List.map_congr_left
          intro a _
          simp only [Function.comp]
          split <;> rfl
        rw [hmap]
        exact hnd
      · intro a ha
        rcases List.mem_map.mp ha with ⟨b, hb, rfl⟩
        have := hne b hb
        split <;> simpa using this
    · rw [if_neg hp]
      have hnotmem : e.etiqueta ∉ acc.map (fun a => a.etiqueta) := by
        intro hmem
        rcases List.mem_map.mp hmem with ⟨b, hb, hbe⟩
        have := List.any_eq_false.mp (Bool.not_eq_true _ |>.mp hp) b hb
        simp [hbe] at this
      constructor
      · rw [List.map_append]
        rw [List.nodup_append]
        refine ⟨hnd, by simp, ?_⟩
        intro a ha hb
        simp at hb
        exact hnotmem (hb ▸ ha)
      · intro a ha
        rcases List.mem_append.mp ha with hmem | hmem
        · exact hne a hmem
        · simp at hmem
          rw [hmem]
          exact he

theorem invAgg_foldl (es : List ErrorEntry) (acc : List ErrorAgg)
    (h : invAgg acc) : invAgg (es.foldl registraError acc) := by
  induction es generalizing acc with
  | nil => exact h
  | cons e t ih => exact ih _ (invAgg_registraError acc e h)

theorem invAgg_mapaErrores (rs : List Resultado) : invAgg (mapaErrores rs) := by
  rw [mapaErrores_eq_flat]
  exact invAgg_foldl _ [] ⟨by simp, by simp⟩

theorem find?_of_mem_nodupkeys (l : List ErrorAgg) (a : ErrorAgg)
    (hnd : (l.map (fun x => x.etiqueta)).Nodup) (ha : a ∈ l) :
    l.find? (fun x => x.etiqueta == a.etiqueta) = some a := by
  induction l with
  | nil => cases ha
  | cons b t ih =>
    rw [List.map_cons, List.nodup_cons] at hnd
    rcases List.mem_cons.mp ha with rfl | hm
    · rw [List.find?_cons_of_pos _ (by simp)]
    · have hbne : ¬ b.etiqueta = a.etiqueta := by
        intro heq
        exact hnd.1 (heq ▸ List.mem_map_of_mem (fun x => x.etiqueta) hm)
      rw [List.find?_cons_of_neg _ (by simp [hbne])]
      exact ih hnd.2 hm

theorem veces_eq_countLabel (rs : List Resultado) (a : ErrorAgg)
    (ha : a ∈ mapaErrores rs) :
    a.etiqueta ≠ "" ∧ a.veces = countLabel rs a.etiqueta := by
  have hinv := invAgg_mapaErrores rs
  have hne : a.etiqueta ≠ "" := hinv.2 a ha
  refine ⟨hne, ?_⟩
  have hfind := find?_of_mem_nodupkeys _ a hinv.1 ha
  have hv : vecesDe (mapaErrores rs) a.etiqueta = a.veces := by
    rw [vecesDe, hfind]
  rw [← hv, mapaErrores_eq_flat, vecesDe_foldl _ _ _ hne]
  rw [countLabel]
  simp [vecesDe, List.find?_nil]

/-- C7: the frequent-errors list flattens all error tags across all records,
counts occurrences per tag label, sorts descending by count with a stable
tie-break (elements with equal count keep the aggregation's first-encounter
order: filtering the sorted list by any count value yields the same
sequence as filtering the unsorted aggregation), and takes at most the top
3; the claim's example yields exactly AC4, then AC1, then AC2. -/
theorem erroresFrecuentes_spec (rs : List Resultado) :
    (erroresFrecuentes rs).length ≤ 3 ∧
    List.Pairwise (fun a b => b.veces ≤ a.veces) (erroresFrecuentes rs) ∧
    (∀ a, a ∈ erroresFrecuentes rs →
      a.etiqueta ≠ "" ∧ a.veces = countLabel rs a.etiqueta) ∧
    (∀ v : Nat, (sortDescBy (fun a => a.veces) (mapaErrores rs)).filter
        (fun a => a.veces == v) = (mapaErrores rs).filter (fun a => a.veces == v)) ∧
    erroresFrecuentes [⟨none, none, none, EjercicioRef.nulo, 0, none, none,
        List.replicate 5 ⟨"AC1", "t1"⟩ ++ List.replicate 5 ⟨"AC2", "t2"⟩ ++
        List.replicate 3 ⟨"AC3", "t3"⟩ ++ List.replicate 9 ⟨"AC4", "t4"⟩⟩] =
      [⟨"AC4", "t4", 9⟩, ⟨"AC1", "t1", 5⟩, ⟨"AC2", "t2", 5⟩] := by
  refine ⟨List.length_take_le 3 _, ?_, ?_, ?_, by decide⟩
  · exact List.Pairwise.sublist (List.take_sublist 3 _)
      (sortDescBy_pairwise (fun a => a.veces) (mapaErrores rs))
  · intro a ha
    have ha' : a ∈ (sortDescBy (fun a => a.veces) (mapaErrores rs)).take 3 := ha
    exact veces_eq_countLabel rs a
      ((sortDescBy_perm (fun a => a.veces) (mapaErrores rs)).mem_iff.mp
        (List.mem_of_mem_take ha'))
  · intro v
    exact sortDescBy_filter (fun a => a.veces) (mapaErrores rs) v

theorem erroresFrecuentes_spec_witness :
    (⟨"AC4", "t4", 9⟩ : ErrorAgg).etiqueta ≠ "" ∧
    (⟨"AC4", "t4", 9⟩ : ErrorAgg).veces =
      countLabel [⟨none, none, none, EjercicioRef.nulo, 0, none, none,
        List.replicate 5 ⟨"AC1", "t1"⟩ ++ List.replicate 5 ⟨"AC2", "t2"⟩ ++
        List.replicate 3 ⟨"AC3", "t3"⟩ ++ List.replicate 9 ⟨"AC4", "t4"⟩⟩] "AC4" :=
  (erroresFrecuentes_spec [⟨none, none, none, EjercicioRef.nulo, 0, none, none,
      List.replicate 5 ⟨"AC1", "t1"⟩ ++ List.replicate 5 ⟨"AC2", "t2"⟩ ++
      List.replicate 3 ⟨"AC3", "t3"⟩ ++ List.replicate 9 ⟨"AC4", "t4"⟩⟩]).2.2.1
    ⟨"AC4", "t4", 9⟩ (by decide)

/-- C9 counterexample: with a real (non-`AC_UNK`) frequent error but a most
recent session whose exercise has no resolvable concept, the code returns
the generic default recommendation — it neither targets the last session's
concept with an errors-based motive nor falls through to the worst-concept
branch (which here holds a concept "C1"). -/
theorem recomendacion_counterexample :
    recomendacion (fun _ => none) [⟨"AC13", "x", 5⟩] none [⟨"C1", (3 : ℚ)⟩] =
      recomendacionDefault ∧
    hasRealErrors [⟨"AC13", "x", 5⟩] = true ∧
    recomendacionDefault.motivo ≠ "Recomendación basada en tus errores recientes." ∧
    recomendacionDefault.motivo ≠
      "Revisa el concepto de tu última sesión y prueba un ejercicio similar." ∧
    recomendacionDefault.concepto = "" :=
  ⟨by decide, by decide, by decide, by decide, rfl⟩

/-- C9 amended: the ordered policy holds with one proviso in the errors
branch: when the top frequent errors contain a tag other than `AC_UNK` and
the most recent session has a resolvable concept, the recommendation targets
that concept with an errors-based motive (not-found lookups produce a null
exercise id and the concept name, never an error); when the most recent
session has no concept, the generic default is returned without falling
through to the concept branch; otherwise, with a non-empty per-concept
aggregation, it targets the concept with the highest mean interaction count
(first-encountered among ties); with no errors and no concept data the
recommendation is the generic empty one.  The selection is a total function:
no branch throws. -/
theorem recomendacion_spec (lookup : String → Option EjercicioDoc)
    (errsF : List ErrorAgg) (uc : Option String) (efs : List Eficiencia) :
    (hasRealErrors errsF = true → uc.getD "" ≠ "" → lookup (uc.getD "") = none →
      recomendacion lookup errsF uc efs =
        ⟨"Recomendación",
          "Revisa el concepto de tu última sesión y prueba un ejercicio similar.",
          none, uc.getD ""⟩) ∧
    (hasRealErrors errsF = true → uc.getD "" ≠ "" →
      ∀ ej, lookup (uc.getD "") = some ej →
        recomendacion lookup errsF uc efs =
          ⟨if ej.titulo = "" then "Ejercicio recomendado" else ej.titulo,
            "Recomendación basada en tus errores recientes.",
            some ej.oid,
            if ej.concepto = "" then uc.getD "" else ej.concepto⟩) ∧
    (hasRealErrors errsF = true → uc.getD "" = "" →
      recomendacion lookup errsF uc efs = recomendacionDefault) ∧
    (hasRealErrors errsF = false → efs = [] →
      recomendacion lookup errsF uc efs = recomendacionDefault) ∧
    (∀ peor rest, hasRealErrors errsF = false →
      sortDescBy (fun e => e.interacciones) efs = peor :: rest →
      peor ∈ efs ∧ (∀ e ∈ efs, e.interacciones ≤ peor.interacciones) ∧
      (lookup peor.concepto = none →
        recomendacion lookup errsF uc efs =
          ⟨"Recomendación", "Refuerza el concepto: " ++ peor.concepto ++ ".",
            none, peor.concepto⟩) ∧
      (∀ ej, lookup peor.concepto = some ej →
        recomendacion lookup errsF uc efs =
          ⟨if ej.titulo = "" then "Ejercicio recomendado" else ej.titulo,
            "Te recomiendo reforzar este concepto según tu actividad reciente.",
            some ej.oid,
            if ej.concepto = "" then peor.concepto else ej.concepto⟩)) := by
  refine ⟨?_, ?_, ?_, ?_, ?_⟩
  · intro h1 h2 h3
    simp only [recomendacion, h1, if_true]
    rw [if_pos h2, h3]
  · intro h1 h2 ej h3
    simp only [recomendacion, h1, if_true]
    rw [if_pos h2, h3]
  · intro h1 h2
    simp only [recomendacion, h1, if_true]
    rw [if_neg (by simpa using h2)]
  · intro h1 h2
    subst h2
    simp [recomendacion, h1]
  · intro peor rest h1 hsort
    obtain ⟨hmem, hmax⟩ :=
      sortDescBy_head_max (fun e => e.interacciones) efs peor rest hsort
    have hlen : 0 < efs.length := by
      have hl := (sortDescBy_perm (fun e => e.interacciones) efs).length_eq
      rw [hsort] at hl
      simp at hl
      omega
    refine ⟨hmem, hmax, ?_, ?_⟩
    · intro hl
      simp only [recomendacion, h1]
      rw [if_neg (by simp), if_pos hlen, hsort]
      simp [hl]
    · intro ej hl
      simp only [recomendacion, h1]
      rw [if_neg (by simp), if_pos hlen, hsort]
      simp [hl]

theorem recomendacion_spec_witness :
    recomendacion (fun _ => none) [⟨"AC13", "x", 5⟩] (some "Ohm") [] =
      ⟨"Recomendación",
        "Revisa el concepto de tu última sesión y prueba un ejercicio similar.",
        none, "Ohm"⟩ :=
  (recomendacion_spec (fun _ => none) [⟨"AC13", "x", 5⟩] (some "Ohm") []).1
    (by decide) (by decide) rfl

end TutorVirtual
